import Mathlib

/-!
Shallow embedding of the `drum` package (a .splice drum-machine file decoder),
which the source provides in two near-duplicate versions:

* version 1 ("V1"): a streaming decoder reading from an `*os.File` with an
  explicit `numBytesRemaining` counter (`uint64` arithmetic);
* version 2 ("V2"): a decoder that reads the whole declared payload with
  `io.ReadFull` and then parses it by slicing a byte buffer.

Bytes are modelled as `Nat` (values `< 256` in well-formed data), a byte
source / buffer as `List Nat`, and Go strings as the byte lists they are.
Fallible Go calls return `GoResult`; a Go runtime panic (slice index out of
range) is a distinct outcome `GoResult.crash`, never an error value.
-/

namespace Drum

abbrev Byte := Nat

/-- Errors the decoders can return as Go `error` values:
`errors.New("invalid header")`, `io.EOF` (a read at end of source), and
`io.ErrUnexpectedEOF` (from `io.ReadFull` when the source runs short). -/
inductive GoErr where
  | invalidHeader
  | eof
  | unexpectedEOF
  deriving DecidableEq, Repr

/-- Outcome of running a piece of Go code: a value, a returned `error`
(Go also hands back the partially built value, unusable by convention),
a runtime crash from an out-of-range slice index, or `stuck`, the
out-of-fuel marker of the embedding's loops (an artifact only: a loop
iteration always consumes at least one byte of a finite source or stops,
so the `length + 1` fuel the wrappers pass cannot run out). -/
inductive GoResult (α : Type) where
  | ok (a : α)
  | err (e : GoErr)
  | crash
  | stuck
  deriving DecidableEq, Repr

def GoResult.bind : GoResult α → (α → GoResult β) → GoResult β
  | .ok a, f => f a
  | .err e, _ => .err e
  | .crash, _ => .crash
  | .stuck, _ => .stuck

instance : Monad GoResult where
  pure := .ok
  bind := GoResult.bind

/-- Model of `f.Read(buf)` with `len(buf) = k` on a source holding `s`: at end of a
file it yields `(0, io.EOF)`; otherwise it fills the buffer with
`min k s.length` bytes, the rest of the buffer keeping the zeros `make`
put there, and returns no error (the decoders ignore the byte count). -/
def goRead (k : Nat) (s : List Byte) : GoResult (List Byte × List Byte) :=
  if s.length = 0 ∧ 0 < k then .err .eof
  else .ok (s.take k ++ List.replicate (k - (s.take k).length) 0, s.drop k)

/-- Model of `io.ReadFull(f, buf)` with `len(buf) = k`: all `k` bytes or
`io.ErrUnexpectedEOF` (or `io.EOF` when nothing at all could be read). -/
def goReadFull (k : Nat) (s : List Byte) : GoResult (List Byte × List Byte) :=
  if k ≤ s.length then .ok (s.take k, s.drop k)
  else if s.length = 0 then .err .eof
  else .err .unexpectedEOF

/-- Go slicing `bs[0:k], bs[k:]`: a runtime panic when `k > len(bs)`. -/
def goSliceSplit (bs : List Byte) (k : Nat) : GoResult (List Byte × List Byte) :=
  if k ≤ bs.length then .ok (bs.take k, bs.drop k) else .crash

/-- Model of `bytes.Trim(bs, "\x00")`: strips zero bytes from BOTH ends. -/
def trimZero (bs : List Byte) : List Byte :=
  ((bs.dropWhile (fun b => b == 0)).reverse.dropWhile (fun b => b == 0)).reverse

/-- The byte content of the magic string `"SPLICE"`. -/
def spliceBytes : List Byte := [83, 80, 76, 73, 67, 69]

/-- The `parseHeader` function: trim zero bytes, compare with `"SPLICE"`. -/
def parseHeader (h : List Byte) : GoResult (List Byte) :=
  if trimZero h = spliceBytes then .ok (trimZero h) else .err .invalidHeader

/-- Model of `binary.Read(…, binary.LittleEndian, &x)` for a `uint32` from a 4-byte
buffer. -/
def u32le (bs : List Byte) : Nat :=
  bs.getD 0 0 + 256 * bs.getD 1 0 + 65536 * bs.getD 2 0 + 16777216 * bs.getD 3 0

/-- IEEE-754 single-precision value: NaN, a signed infinity, or the exact
finite value `(-1)^neg * num * 2^exp` (a dyadic rational, which every
finite float32 is; decoding the same bits always yields the same
representation, and negative zero stays distinct from zero, as in Go). -/
inductive F32 where
  | nan
  | inf (neg : Bool)
  | finite (neg : Bool) (num : Nat) (exp : Int)
  deriving DecidableEq, Repr

/-- Decode 32 bits as an IEEE-754 single-precision float. -/
def f32FromBits (bits : Nat) : F32 :=
  let sign : Nat := bits / 2 ^ 31 % 2
  let expo : Nat := bits / 2 ^ 23 % 256
  let mant : Nat := bits % 2 ^ 23
  if expo = 255 then
    if mant = 0 then .inf (sign = 1) else .nan
  else if expo = 0 then .finite (sign = 1) mant (-149)
  else .finite (sign = 1) (2 ^ 23 + mant) ((expo : Int) - 150)

/-- Model of `binary.Read(…, binary.LittleEndian, &p.tempo)` from a 4-byte buffer. -/
def f32FromBytes (bs : List Byte) : F32 := f32FromBits (u32le bs)

/-- One voice/track entry (`instrument` of V1 and `Instrument` of V2 are
structurally the same type; `name` and each `measure` entry are raw byte
strings). -/
structure Instrument where
  num : Nat
  name : List Byte
  measure : List (List Byte)
  deriving DecidableEq, Repr

/-- The decode result (`Pattern` of both versions). -/
structure Pattern where
  version : List Byte
  tempo : F32
  instruments : List Instrument
  deriving DecidableEq, Repr

/-- Go `uint64` subtraction `a - b` with wrap-around. -/
def sub64 (a b : Nat) : Nat := (a % 2 ^ 64 + 2 ^ 64 - b % 2 ^ 64) % 2 ^ 64

/-! ### Version 1: the streaming decoder -/

/-- The `for i := 0; i < 4; i++` step-group loop of V1's `readInstrument`:
each iteration reads a fresh 4-byte `stepBin` and appends it. -/
def readStepsV1 : Nat → List Byte → GoResult (List (List Byte) × List Byte)
  | 0, s => .ok ([], s)
  | n + 1, s => do
    let (stepBin, s1) ← goRead 4 s
    let (rest, s2) ← readStepsV1 n s1
    pure (stepBin :: rest, s2)

/-- V1 `readInstrument`: 4-byte little-endian id, 1-byte name length,
the name, then 4 step groups; reports `numBytesRead = 4+1+L+4*4 = 21+L`
(a `uint16`, which cannot wrap since `L ≤ 255`). On error Go returns the
partial instrument alongside, which the caller never uses. -/
def readInstrumentV1 (s : List Byte) : GoResult (Nat × Instrument × List Byte) := do
  let (numBin, s1) ← goRead 4 s
  let (nlBin, s2) ← goRead 1 s1
  let nameLength : Nat := nlBin.getD 0 0
  let (nameBin, s3) ← goRead nameLength s2
  let (steps, s4) ← readStepsV1 4 s3
  pure (21 + nameLength, ⟨u32le numBin, nameBin, steps⟩, s4)

/-- V1's `for numBytesRemaining > 0` instrument loop, fuel-indexed for
structural recursion (`instrLoopV1` passes fuel `s.length + 1`, which
cannot run out: a successful `readInstrument` consumes at least one byte
and an empty source makes it fail). Returns the instruments read and the
unread rest of the source. -/
def instrLoopV1Aux : Nat → Nat → List Byte → GoResult (List Instrument × List Byte)
  | 0, _, _ => .stuck
  | fuel + 1, rem, s =>
    if rem = 0 then .ok ([], s)
    else do
      let (n, i, s1) ← readInstrumentV1 s
      let (is, s2) ← instrLoopV1Aux fuel (sub64 rem n) s1
      pure (i :: is, s2)

def instrLoopV1 (rem : Nat) (s : List Byte) : GoResult (List Instrument × List Byte) :=
  instrLoopV1Aux (s.length + 1) rem s

/-- V1 `DecodeFile`, from the opened file's byte content: header, size byte,
version (32 bytes), tempo (4 bytes), then the counting instrument loop.
The source decrements `numBytesRemaining` by 32 and by 4 before the
corresponding reads; the counter is used only after both. -/
def decodeV1 (file : List Byte) : GoResult Pattern := do
  let (headerBin, s1) ← goRead 13 file
  let _ ← parseHeader headerBin
  let (numBytesSlice, s2) ← goRead 1 s1
  let rem0 : Nat := numBytesSlice.getD 0 0
  let (versionBin, s3) ← goRead 32 s2
  let (tempoBin, s4) ← goRead 4 s3
  let (insts, _) ← instrLoopV1 (sub64 (sub64 rem0 32) 4) s4
  pure ⟨trimZero versionBin, f32FromBytes tempoBin, insts⟩

/-! ### Version 2: the buffer-slicing decoder -/

/-- The step-group loop of V2's `readInstrument`: slices `[0:4]`/`[4:]`
four times. -/
def readStepsV2 : Nat → List Byte → GoResult (List (List Byte) × List Byte)
  | 0, bs => .ok ([], bs)
  | n + 1, bs => do
    let (stepBin, bs1) ← goSliceSplit bs 4
    let (rest, bs2) ← readStepsV2 n bs1
    pure (stepBin :: rest, bs2)

/-- V2 `readInstrument`: the same record layout, parsed by slicing the
in-memory payload; overrunning the buffer is a runtime panic. -/
def readInstrumentV2 (bs : List Byte) : GoResult (Instrument × List Byte) := do
  let (numBin, bs1) ← goSliceSplit bs 4
  let (nlBin, bs2) ← goSliceSplit bs1 1
  let nameLength : Nat := nlBin.getD 0 0
  let (nameBin, bs3) ← goSliceSplit bs2 nameLength
  let (steps, bs4) ← readStepsV2 4 bs3
  pure (⟨u32le numBin, nameBin, steps⟩, bs4)

/-- V2 `readInstruments`: `for len(remainingBytes) > 0`, fuel-indexed
(`readInstruments` passes fuel `bs.length + 1`, which cannot run out: a
non-crashing `readInstrument` consumes at least 21 bytes). -/
def readInstrumentsAux : Nat → List Byte → GoResult (List Instrument)
  | 0, _ => .stuck
  | fuel + 1, bs =>
    if bs.length = 0 then .ok []
    else do
      let (i, rest) ← readInstrumentV2 bs
      let is ← readInstrumentsAux fuel rest
      pure (i :: is)

def readInstruments (bs : List Byte) : GoResult (List Instrument) :=
  readInstrumentsAux (bs.length + 1) bs

/-- V2 `DecodeFile`: header, size byte, `io.ReadFull` of the declared `N`
payload bytes, then slicing out version (32), tempo (4) and the
instrument records. -/
def decodeV2 (file : List Byte) : GoResult Pattern := do
  let (headerBin, s1) ← goRead 13 file
  let _ ← parseHeader headerBin
  let (numBytesSlice, s2) ← goRead 1 s1
  let numBytesRemaining : Nat := numBytesSlice.getD 0 0
  let (remainingBytes, _) ← goReadFull numBytesRemaining s2
  let (versionBin, rb1) ← goSliceSplit remainingBytes 32
  let (tempoBin, rb2) ← goSliceSplit rb1 4
  let insts ← readInstruments rb2
  pure ⟨trimZero versionBin, f32FromBytes tempoBin, insts⟩

/-! ### Rendering (`String()` is identical in both versions) -/

/-- Go string as its character data (bytes mapped one-to-one to chars,
faithful for the byte values the renderer produces and compares). -/
def bytesToString (bs : List Byte) : String := String.mk (bs.map Char.ofNat)

/-- The character a step byte renders to: `x` for `0x01`, `-` otherwise. -/
def stepChar (b : Byte) : String := if b = 1 then "x" else "-"

/-- Join of strings spelled as the left fold the Go code's `+=` performs. -/
def strJoin (l : List String) : String := l.foldl (· ++ ·) ""

/-- One instrument line of `String()`: `fmt.Sprintf("(%d) %s\t|", …)`,
then per measure the beats (`x`/`-`) and a closing `|`, then `\n`. -/
def instrLine (i : Instrument) : String :=
  (i.measure.foldl
    (fun line m =>
      (m.foldl (fun l b => l ++ (if b = 1 then "x" else "-")) line) ++ "|")
    ("(" ++ Nat.repr i.num ++ ") " ++ bytesToString i.name ++ "\t|")) ++ "\n"

/-- Decimal digits of the fraction `rem / d` with `0 < rem < d = 2^k`:
repeated multiply-by-ten long division. The expansion of such a dyadic
fraction is exact within `k` digits, so fuel `k` never runs out. -/
def fracDigitsAux : Nat → Nat → Nat → String
  | 0, _, _ => ""
  | fuel + 1, rem, d =>
    if rem = 0 then ""
    else Nat.repr (rem * 10 / d) ++ fracDigitsAux fuel (rem * 10 % d) d

/-- Modelled from the spec: §4.6 imposes no numeric-to-text rule for the
tempo ("no explicit rounding/formatting rule is imposed"; "implementers
should pick one convention and hold it fixed"). The convention fixed here
is the exact decimal expansion of the magnitude `num * 2^exp`, which
coincides with Go's `%v` on the integral tempos the spec's scenarios
exercise. -/
def formatDyadic (num : Nat) (exp : Int) : String :=
  if 0 ≤ exp then Nat.repr (num * 2 ^ exp.toNat)
  else
    let k := (-exp).toNat
    let d := 2 ^ k
    if num % d = 0 then Nat.repr (num / d)
    else Nat.repr (num / d) ++ "." ++ fracDigitsAux k (num % d) d

/-- Model of `fmt.Sprintf("%v", tempo)` under the convention of `formatDyadic`;
the sign, NaN and infinity spellings are Go's. -/
def formatF32 : F32 → String
  | .nan => "NaN"
  | .inf true => "-Inf"
  | .inf false => "+Inf"
  | .finite neg num exp =>
    if neg then "-" ++ formatDyadic num exp else formatDyadic num exp

/-- The `Pattern.String()` method: version line, tempo line, then the instrument
lines accumulated left to right. -/
def patternString (p : Pattern) : String :=
  ("Saved with HW Version: " ++ bytesToString p.version ++ "\n") ++
  ("Tempo: " ++ formatF32 p.tempo ++ "\n") ++
  p.instruments.foldl (fun acc i => acc ++ instrLine i) ""

/-! ### Spec-side record description

A record's raw bytes, built from known `id`, `name` and four step groups
exactly as the file layout prescribes: `id`(4, little-endian) +
`nameLen`(1) + `name` + 4×4 step bytes. -/

/-- Little-endian 4-byte encoding of a `uint32`. -/
def encU32 (n : Nat) : List Byte :=
  [n % 256, n / 256 % 256, n / 65536 % 256, n / 16777216 % 256]

/-- The data of one instrument record. -/
structure Rec where
  id : Nat
  name : List Byte
  g0 : List Byte
  g1 : List Byte
  g2 : List Byte
  g3 : List Byte
  deriving DecidableEq, Repr

/-- A representable record: `id` fits a `uint32`, the name length fits its
1-byte prefix, each step group is 4 bytes. -/
def Rec.WF (r : Rec) : Prop :=
  r.id < 2 ^ 32 ∧ r.name.length ≤ 255 ∧
  r.g0.length = 4 ∧ r.g1.length = 4 ∧ r.g2.length = 4 ∧ r.g3.length = 4

instance (r : Rec) : Decidable r.WF := by
  unfold Rec.WF
  exact inferInstance

/-- The record's raw bytes. -/
def Rec.encode (r : Rec) : List Byte :=
  encU32 r.id ++ [r.name.length] ++ r.name ++ r.g0 ++ r.g1 ++ r.g2 ++ r.g3

/-- The record's byte count: `4 + 1 + L + 16`. -/
def Rec.size (r : Rec) : Nat := 21 + r.name.length

/-- The instrument a record parses to. -/
def Rec.toInstrument (r : Rec) : Instrument :=
  ⟨r.id, r.name, [r.g0, r.g1, r.g2, r.g3]⟩

/-- Concatenation of encoded records: the instrument section of a file. -/
def encodeRecs (rs : List Rec) : List Byte := (rs.map Rec.encode).flatten

/-- Total instrument-section size. -/
def recsSize (rs : List Rec) : Nat := (rs.map Rec.size).sum

/-- What the spec's words describe: strip TRAILING zero bytes only
(used to compare the spec's description with the code's `bytes.Trim`,
which strips both ends). -/
def stripTrailingZeros (bs : List Byte) : List Byte :=
  (bs.reverse.dropWhile (fun b => b == 0)).reverse

/-- The byte content of a valid header: `"SPLICE"` + 7 zero bytes. -/
def spliceHeader : List Byte := spliceBytes ++ List.replicate 7 0

/-- A well-formed .splice file: valid header, size byte
`N = 36 + recsSize rs`, a 32-byte version field, a 4-byte tempo field,
the encoded records, and possibly trailing bytes beyond the declared
payload. -/
def spliceFile (rs : List Rec) (vB tB extra : List Byte) : List Byte :=
  spliceHeader ++ [36 + recsSize rs] ++ vB ++ tB ++ encodeRecs rs ++ extra

/-- The pattern a well-formed file decodes to. -/
def splicePattern (rs : List Rec) (vB tB : List Byte) : Pattern :=
  ⟨trimZero vB, f32FromBytes tB, rs.map Rec.toInstrument⟩

/-! ### Concrete inputs used by the scenario claims -/

/-- Version text `"0.808-alpha"` zero-padded to 32 bytes. -/
def ver0808 : List Byte :=
  [48, 46, 56, 48, 56, 45, 97, 108, 112, 104, 97] ++ List.replicate 21 0

/-- The 4 little-endian IEEE-754 float32 bytes of `120.0`. -/
def tempo120 : List Byte := [0, 0, 240, 66]

/-- Header + size byte `0x24` + version + tempo, no instrument bytes. -/
def c7input : List Byte := spliceHeader ++ [36] ++ ver0808 ++ tempo120

/-- The pattern `c7input` decodes to. -/
def c7pattern : Pattern :=
  ⟨[48, 46, 56, 48, 56, 45, 97, 108, 112, 104, 97],
   F32.finite false 15728640 (-17), []⟩

/-- An instrument record: id 1, name `"kick"`, step groups
`{1,0,0,0}` four times. -/
def kickRec : Rec :=
  ⟨1, [107, 105, 99, 107], [1, 0, 0, 0], [1, 0, 0, 0], [1, 0, 0, 0], [1, 0, 0, 0]⟩

/-- An instrument record: id 2, name `"snare"`, step groups `{0,0,0,1}`. -/
def snareRec : Rec :=
  ⟨2, [115, 110, 97, 114, 101], [0, 0, 0, 1], [0, 0, 0, 1], [0, 0, 0, 1], [0, 0, 0, 1]⟩

/-- A file whose declared payload length is 0 (< 36). -/
def shortPayloadInput : List Byte := spliceHeader ++ [0]

/-- A 57-byte payload whose single record declares name length 100 with
only 16 bytes left after the length byte. -/
def nameOverrun100Input : List Byte :=
  spliceHeader ++ [57] ++ List.replicate 32 0 ++ [0, 0, 0, 0] ++
    ([0, 0, 0, 0] ++ [100] ++ List.replicate 16 0)

/-- A 32-byte version field whose text begins with a zero byte: `0x00 'a'`
then zero padding. -/
def leadingZeroVersionField : List Byte := 0 :: 97 :: List.replicate 30 0

/-- A file carrying `leadingZeroVersionField` and no instruments. -/
def leadingZeroVersionInput : List Byte :=
  spliceHeader ++ [36] ++ leadingZeroVersionField ++ [0, 0, 0, 0]

/-- A 13-byte header buffer with a LEADING zero before `"SPLICE"`. -/
def leadingZeroHeader : List Byte := 0 :: (spliceBytes ++ List.replicate 6 0)

/-! ### Basic lemmas about the byte-source primitives -/

theorem take_app {α : Type} {n : Nat} (l₁ l₂ : List α) (h : l₁.length = n) :
    (l₁ ++ l₂).take n = l₁ := by
  subst h
  simp

theorem drop_app {α : Type} {n : Nat} (l₁ l₂ : List α) (h : l₁.length = n) :
    (l₁ ++ l₂).drop n = l₂ := by
  subst h
  simp

@[simp] theorem bind_ok {α β : Type} (a : α) (f : α → GoResult β) :
    (GoResult.ok a >>= f) = f a := rfl

@[simp] theorem bind_crash {α β : Type} (f : α → GoResult β) :
    (GoResult.crash >>= f) = (.crash : GoResult β) := rfl

@[simp] theorem bind_stuck {α β : Type} (f : α → GoResult β) :
    (GoResult.stuck >>= f) = (.stuck : GoResult β) := rfl

theorem goRead_eq {k : Nat} {s : List Byte} (h : k ≤ s.length) :
    goRead k s = .ok (s.take k, s.drop k) := by
  unfold goRead
  rw [if_neg]
  · have : (s.take k).length = k := by simp [Nat.min_eq_left h]
    simp [this]
  · rintro ⟨h0, hk⟩
    omega

theorem goRead_nil {k : Nat} (h : 0 < k) : goRead k [] = .err .eof := by
  unfold goRead
  rw [if_pos ⟨rfl, h⟩]

theorem goSliceSplit_eq {k : Nat} {s : List Byte} (h : k ≤ s.length) :
    goSliceSplit s k = .ok (s.take k, s.drop k) := by
  unfold goSliceSplit
  rw [if_pos h]

theorem goReadFull_eq {k : Nat} {s : List Byte} (h : k ≤ s.length) :
    goReadFull k s = .ok (s.take k, s.drop k) := by
  unfold goReadFull
  rw [if_pos h]

theorem u32le_encU32 {n : Nat} (h : n < 2 ^ 32) : u32le (encU32 n) = n := by
  simp [u32le, encU32, List.getD]
  omega

theorem sub64_exact {a b : Nat} (hb : b ≤ a) (ha : a < 2 ^ 64) :
    sub64 a b = a - b := by
  unfold sub64
  omega

theorem goRead_app {l m : List Byte} {n : Nat} (h : l.length = n) :
    goRead n (l ++ m) = .ok (l, m) := by
  rw [goRead_eq (by simp [h]), take_app _ _ h, drop_app _ _ h]

theorem goSliceSplit_app {l m : List Byte} {n : Nat} (h : l.length = n) :
    goSliceSplit (l ++ m) n = .ok (l, m) := by
  rw [goSliceSplit_eq (by simp [h]), take_app _ _ h, drop_app _ _ h]

theorem goReadFull_app {l m : List Byte} {n : Nat} (h : l.length = n) :
    goReadFull n (l ++ m) = .ok (l, m) := by
  rw [goReadFull_eq (by simp [h]), take_app _ _ h, drop_app _ _ h]

theorem encodeRecs_cons (r : Rec) (rs : List Rec) :
    encodeRecs (r :: rs) = r.encode ++ encodeRecs rs := by
  simp [encodeRecs]

theorem recsSize_cons (r : Rec) (rs : List Rec) :
    recsSize (r :: rs) = r.size + recsSize rs := by
  simp [recsSize]

theorem Rec.encode_length {r : Rec} (h : r.WF) :
    r.encode.length = 21 + r.name.length := by
  obtain ⟨-, -, h0, h1, h2, h3⟩ := h
  simp [Rec.encode, encU32, h0, h1, h2, h3]
  omega

/-! ### Round-trip of one encoded instrument record -/

theorem readStepsV2_cons {g bs t : List Byte} {ss : List (List Byte)} {n : Nat}
    (h : g.length = 4) (hrec : readStepsV2 n bs = .ok (ss, t)) :
    readStepsV2 (n + 1) (g ++ bs) = .ok (g :: ss, t) := by
  simp only [readStepsV2, goSliceSplit_app h, bind_ok, hrec]
  rfl

theorem readStepsV1_cons {g bs t : List Byte} {ss : List (List Byte)} {n : Nat}
    (h : g.length = 4) (hrec : readStepsV1 n bs = .ok (ss, t)) :
    readStepsV1 (n + 1) (g ++ bs) = .ok (g :: ss, t) := by
  simp only [readStepsV1, goRead_app h, bind_ok, hrec]
  rfl

theorem readStepsV2_encode {g0 g1 g2 g3 : List Byte} (rest : List Byte)
    (h0 : g0.length = 4) (h1 : g1.length = 4) (h2 : g2.length = 4)
    (h3 : g3.length = 4) :
    readStepsV2 4 (g0 ++ (g1 ++ (g2 ++ (g3 ++ rest)))) = .ok ([g0, g1, g2, g3], rest) :=
  readStepsV2_cons h0 (readStepsV2_cons h1 (readStepsV2_cons h2
    (readStepsV2_cons h3 rfl)))

theorem readStepsV1_encode {g0 g1 g2 g3 : List Byte} (rest : List Byte)
    (h0 : g0.length = 4) (h1 : g1.length = 4) (h2 : g2.length = 4)
    (h3 : g3.length = 4) :
    readStepsV1 4 (g0 ++ (g1 ++ (g2 ++ (g3 ++ rest)))) = .ok ([g0, g1, g2, g3], rest) :=
  readStepsV1_cons h0 (readStepsV1_cons h1 (readStepsV1_cons h2
    (readStepsV1_cons h3 rfl)))

theorem readInstrumentV2_encode {r : Rec} (rest : List Byte) (h : r.WF) :
    readInstrumentV2 (r.encode ++ rest) = .ok (r.toInstrument, rest) := by
  obtain ⟨hid, hn, h0, h1, h2, h3⟩ := h
  have hb : r.encode ++ rest =
      encU32 r.id ++ ([r.name.length] ++ (r.name ++ (r.g0 ++ (r.g1 ++ (r.g2 ++
        (r.g3 ++ rest)))))) := by
    simp [Rec.encode, List.append_assoc]
  rw [hb]
  simp only [readInstrumentV2,
    goSliceSplit_app (l := encU32 r.id) (n := 4) rfl,
    goSliceSplit_app (l := [r.name.length]) (n := 1) rfl,
    List.getD_cons_zero,
    goSliceSplit_app (l := r.name) (n := r.name.length) rfl,
    readStepsV2_encode rest h0 h1 h2 h3,
    u32le_encU32 hid, bind_ok]
  rfl

theorem readInstrumentV1_encode {r : Rec} (rest : List Byte) (h : r.WF) :
    readInstrumentV1 (r.encode ++ rest) =
      .ok (21 + r.name.length, r.toInstrument, rest) := by
  obtain ⟨hid, hn, h0, h1, h2, h3⟩ := h
  have hb : r.encode ++ rest =
      encU32 r.id ++ ([r.name.length] ++ (r.name ++ (r.g0 ++ (r.g1 ++ (r.g2 ++
        (r.g3 ++ rest)))))) := by
    simp [Rec.encode, List.append_assoc]
  rw [hb]
  simp only [readInstrumentV1,
    goRead_app (l := encU32 r.id) (n := 4) rfl,
    goRead_app (l := [r.name.length]) (n := 1) rfl,
    List.getD_cons_zero,
    goRead_app (l := r.name) (n := r.name.length) rfl,
    readStepsV1_encode rest h0 h1 h2 h3,
    u32le_encU32 hid, bind_ok]
  rfl

/-! ### The instrument loops on a well-formed record section -/

theorem readInstrumentsAux_encode :
    ∀ (rs : List Rec) (fuel : Nat), (∀ r ∈ rs, r.WF) →
    (encodeRecs rs).length < fuel →
    readInstrumentsAux fuel (encodeRecs rs) = .ok (rs.map Rec.toInstrument) := by
  intro rs
  induction rs with
  | nil =>
    intro fuel _ hf
    cases fuel with
    | zero => omega
    | succ f => simp [readInstrumentsAux, encodeRecs]
  | cons r rs ih =>
    intro fuel hwf hf
    have hr : r.WF := hwf r (by simp)
    cases fuel with
    | zero => omega
    | succ f =>
      rw [encodeRecs_cons] at hf ⊢
      have hlen : r.encode.length = 21 + r.name.length := Rec.encode_length hr
      have hne : (r.encode ++ encodeRecs rs).length ≠ 0 := by
        simp [hlen]
      simp only [readInstrumentsAux, if_neg hne,
        readInstrumentV2_encode (encodeRecs rs) hr, bind_ok,
        ih f (fun x hx => hwf x (by simp [hx])) (by simp at hf ⊢; omega)]
      rfl

theorem instrLoopV1Aux_encode :
    ∀ (rs : List Rec) (extra : List Byte) (fuel : Nat), (∀ r ∈ rs, r.WF) →
    recsSize rs < 2 ^ 64 →
    (encodeRecs rs ++ extra).length < fuel →
    instrLoopV1Aux fuel (recsSize rs) (encodeRecs rs ++ extra) =
      .ok (rs.map Rec.toInstrument, extra) := by
  intro rs
  induction rs with
  | nil =>
    intro extra fuel _ _ hf
    cases fuel with
    | zero => omega
    | succ f => simp [instrLoopV1Aux, recsSize, encodeRecs]
  | cons r rs ih =>
    intro extra fuel hwf hsz hf
    have hr : r.WF := hwf r (by simp)
    cases fuel with
    | zero => omega
    | succ f =>
      rw [encodeRecs_cons, List.append_assoc] at hf
      rw [encodeRecs_cons, recsSize_cons, List.append_assoc]
      have hlen : r.encode.length = 21 + r.name.length := Rec.encode_length hr
      have hrem : r.size + recsSize rs ≠ 0 := by
        simp [Rec.size]
      rw [recsSize_cons] at hsz
      have hsub : sub64 (r.size + recsSize rs) (21 + r.name.length) = recsSize rs := by
        rw [show (21 + r.name.length) = r.size from rfl, sub64_exact (by omega) hsz]
        omega
      simp only [instrLoopV1Aux, if_neg hrem,
        readInstrumentV1_encode (encodeRecs rs ++ extra) hr, bind_ok, hsub,
        ih extra f (fun x hx => hwf x (by simp [hx])) (by omega)
          (by simp at hf ⊢; omega)]
      rfl

theorem encodeRecs_length {rs : List Rec} (hwf : ∀ r ∈ rs, r.WF) :
    (encodeRecs rs).length = recsSize rs := by
  induction rs with
  | nil => simp [encodeRecs, recsSize]
  | cons r rs ih =>
    rw [encodeRecs_cons, recsSize_cons]
    have hr : r.WF := hwf r (by simp)
    simp [Rec.encode_length hr, Rec.size, ih (fun x hx => hwf x (by simp [hx]))]

theorem decodeV1_wf (rs : List Rec) (vB tB extra : List Byte)
    (hwf : ∀ r ∈ rs, r.WF) (hv : vB.length = 32) (ht : tB.length = 4)
    (hN : 36 + recsSize rs ≤ 255) :
    decodeV1 (spliceFile rs vB tB extra) = .ok (splicePattern rs vB tB) := by
  have hph : parseHeader spliceHeader = GoResult.ok spliceBytes := by decide
  have hfile : spliceFile rs vB tB extra =
      spliceHeader ++ ([36 + recsSize rs] ++ (vB ++ (tB ++
        (encodeRecs rs ++ extra)))) := by
    simp [spliceFile, List.append_assoc]
  have hsub1 : sub64 (36 + recsSize rs) 32 = 4 + recsSize rs := by
    rw [sub64_exact (by omega) (by omega)]
    omega
  have hsub2 : sub64 (4 + recsSize rs) 4 = recsSize rs := by
    rw [sub64_exact (by omega) (by omega)]
    omega
  have hloop : instrLoopV1 (recsSize rs) (encodeRecs rs ++ extra) =
      .ok (rs.map Rec.toInstrument, extra) :=
    instrLoopV1Aux_encode rs extra _ hwf (by omega) (by omega)
  rw [hfile, decodeV1, goRead_app (l := spliceHeader) (n := 13) rfl, bind_ok]
  simp only []
  rw [hph, bind_ok, goRead_app (l := [36 + recsSize rs]) (n := 1) rfl, bind_ok]
  simp only []
  rw [goRead_app (l := vB) (n := 32) hv, bind_ok]
  simp only []
  rw [goRead_app (l := tB) (n := 4) ht, bind_ok]
  simp only [List.getD_cons_zero]
  rw [hsub1, hsub2, hloop, bind_ok]
  rfl

theorem decodeV2_wf (rs : List Rec) (vB tB extra : List Byte)
    (hwf : ∀ r ∈ rs, r.WF) (hv : vB.length = 32) (ht : tB.length = 4)
    (hN : 36 + recsSize rs ≤ 255) :
    decodeV2 (spliceFile rs vB tB extra) = .ok (splicePattern rs vB tB) := by
  have hph : parseHeader spliceHeader = GoResult.ok spliceBytes := by decide
  have hfile : spliceFile rs vB tB extra =
      spliceHeader ++ ([36 + recsSize rs] ++
        ((vB ++ (tB ++ encodeRecs rs)) ++ extra)) := by
    simp [spliceFile, List.append_assoc]
  have hpay : (vB ++ (tB ++ encodeRecs rs)).length = 36 + recsSize rs := by
    simp [hv, ht, encodeRecs_length hwf]
    omega
  have hloop : readInstruments (encodeRecs rs) = .ok (rs.map Rec.toInstrument) :=
    readInstrumentsAux_encode rs _ hwf (by omega)
  rw [hfile, decodeV2, goRead_app (l := spliceHeader) (n := 13) rfl, bind_ok]
  simp only []
  rw [hph, bind_ok, goRead_app (l := [36 + recsSize rs]) (n := 1) rfl, bind_ok]
  simp only [List.getD_cons_zero]
  rw [goReadFull_app (l := vB ++ (tB ++ encodeRecs rs)) (n := 36 + recsSize rs) hpay,
    bind_ok]
  simp only []
  rw [goSliceSplit_app (l := vB) (n := 32) hv, bind_ok]
  simp only []
  rw [goSliceSplit_app (l := tB) (n := 4) ht, bind_ok]
  simp only []
  rw [hloop, bind_ok]
  rfl

/-! ### Structure of `bytes.Trim(…, "\x00")` -/

theorem dropWhile_zero_decomp (l : List Byte) :
    ∃ a, l = List.replicate a 0 ++ l.dropWhile (fun b => b == 0) := by
  induction l with
  | nil => exact ⟨0, rfl⟩
  | cons x xs ih =>
    by_cases hx : x = 0
    · subst hx
      obtain ⟨a, ha⟩ := ih
      refine ⟨a + 1, ?_⟩
      rw [List.dropWhile_cons]
      simpa [List.replicate_succ] using ha
    · refine ⟨0, ?_⟩
      rw [List.dropWhile_cons]
      simp [hx]

theorem dropWhile_zero_head? (l : List Byte) :
    ¬((l.dropWhile (fun b => b == 0)).head? = some 0) := by
  induction l with
  | nil => simp
  | cons x xs ih =>
    by_cases hx : x = 0
    · subst hx
      rw [List.dropWhile_cons]
      simpa using ih
    · rw [List.dropWhile_cons]
      simp [hx]

theorem dropWhile_zero_replicate (a : Nat) (x : List Byte) :
    (List.replicate a 0 ++ x).dropWhile (fun b => b == 0) =
      x.dropWhile (fun b => b == 0) := by
  induction a with
  | zero => simp
  | succ n ih =>
    rw [List.replicate_succ, List.cons_append, List.dropWhile_cons]
    simpa using ih

theorem dropWhile_zero_of_head {x : List Byte} (hh : ¬(x.head? = some 0)) :
    x.dropWhile (fun b => b == 0) = x := by
  cases x with
  | nil => rfl
  | cons h t =>
    rw [List.dropWhile_cons]
    simp at hh
    simp [hh]

/-- What `bytes.Trim(l, "\x00")` computes: the bytes of `l` between the
leading zeros and the trailing zeros, everything in between untouched, and
the remaining ends (when present) nonzero. -/
theorem trimZero_spec (l : List Byte) :
    (∃ a b, l = List.replicate a 0 ++ trimZero l ++ List.replicate b 0) ∧
    ¬((trimZero l).head? = some 0) ∧ ¬((trimZero l).getLast? = some 0) := by
  obtain ⟨a, ha⟩ := dropWhile_zero_decomp l
  obtain ⟨b, hb⟩ := dropWhile_zero_decomp (l.dropWhile (fun x => x == 0)).reverse
  have hm : l.dropWhile (fun x => x == 0) = trimZero l ++ List.replicate b 0 := by
    have h2 := congrArg List.reverse hb
    rw [List.reverse_reverse, List.reverse_append, List.reverse_replicate] at h2
    exact h2
  refine ⟨⟨a, b, ?_⟩, ?_, ?_⟩
  · rw [List.append_assoc, ← hm]
    exact ha
  · intro hc
    cases htz : trimZero l with
    | nil => rw [htz] at hc; simp at hc
    | cons h t =>
      rw [htz] at hc
      simp at hc
      subst hc
      have : (l.dropWhile (fun x => x == 0)).head? = some 0 := by
        rw [hm, htz]
        simp
      exact dropWhile_zero_head? l this
  · have hrev : (trimZero l).reverse =
        (l.dropWhile (fun x => x == 0)).reverse.dropWhile (fun x => x == 0) := by
      simp [trimZero]
    rw [← List.head?_reverse, hrev]
    exact dropWhile_zero_head? _

/-- Conversely, zero-padding around a block with nonzero ends trims back to
exactly that block. -/
theorem trimZero_padded {x : List Byte} (hh : ¬(x.head? = some 0))
    (hl : ¬(x.getLast? = some 0)) (a b : Nat) :
    trimZero (List.replicate a 0 ++ x ++ List.replicate b 0) = x := by
  cases x with
  | nil =>
    have h1 : (List.replicate a 0 ++ [] ++
        List.replicate b 0).dropWhile (fun v => v == 0) = [] := by
      rw [List.append_nil, dropWhile_zero_replicate]
      have h2 := dropWhile_zero_replicate b ([] : List Byte)
      simpa using h2
    unfold trimZero
    rw [h1]
    rfl
  | cons h t =>
    have hne : h ≠ 0 := by simpa using hh
    unfold trimZero
    rw [List.append_assoc, dropWhile_zero_replicate]
    rw [dropWhile_zero_of_head (x := (h :: t) ++ List.replicate b 0) (by simp [hne])]
    rw [List.reverse_append, List.reverse_replicate, dropWhile_zero_replicate]
    rw [dropWhile_zero_of_head (x := (h :: t).reverse)
      (by rw [List.head?_reverse]; exact hl)]
    rw [List.reverse_reverse]

/-! ### Structure of the renderer's string accumulation -/

theorem strAppend_assoc (a b c : String) : a ++ b ++ c = a ++ (b ++ c) := by
  apply String.ext
  simp [List.append_assoc]

theorem strAppend_empty_left (s : String) : "" ++ s = s := by
  apply String.ext
  simp

theorem strJoin_nil : strJoin [] = "" := rfl

theorem strJoin_cons (s : String) (l : List String) :
    strJoin (s :: l) = s ++ strJoin l := by
  have key : ∀ (l : List String) (init : String),
      l.foldl (· ++ ·) init = init ++ strJoin l := by
    intro l
    induction l with
    | nil =>
      intro init
      apply String.ext
      simp [strJoin]
    | cons x xs ih =>
      intro init
      show xs.foldl (· ++ ·) (init ++ x) = init ++ strJoin (x :: xs)
      rw [ih (init ++ x), strAppend_assoc]
      have : strJoin (x :: xs) = x ++ strJoin xs := by
        show xs.foldl (· ++ ·) ("" ++ x) = x ++ strJoin xs
        rw [strAppend_empty_left, ih x]
      rw [this]
  show List.foldl (· ++ ·) ("" ++ s) l = s ++ strJoin l
  rw [strAppend_empty_left, key l s]

theorem foldl_strAppend {α : Type} (f : α → String) :
    ∀ (l : List α) (init : String),
    l.foldl (fun acc x => acc ++ f x) init = init ++ strJoin (l.map f) := by
  intro l
  induction l with
  | nil =>
    intro init
    apply String.ext
    simp [strJoin]
  | cons x xs ih =>
    intro init
    show xs.foldl (fun acc v => acc ++ f v) (init ++ f x) = init ++ strJoin ((x :: xs).map f)
    rw [ih (init ++ f x), List.map_cons, strJoin_cons, strAppend_assoc]

/-- The instrument line, compositionally: the `fmt.Sprintf` prefix, then
per beat group its four beat characters and a `|`, then the newline. -/
theorem instrLine_eq (i : Instrument) :
    instrLine i =
      "(" ++ Nat.repr i.num ++ ") " ++ bytesToString i.name ++ "\t|" ++
        strJoin (i.measure.map fun m => strJoin (m.map stepChar) ++ "|") ++ "\n" := by
  unfold instrLine
  have hfun : ∀ (line : String) (m : List Byte),
      (m.foldl (fun l b => l ++ (if b = 1 then "x" else "-")) line) ++ "|" =
        line ++ (strJoin (m.map stepChar) ++ "|") := by
    intro line m
    rw [show (fun l (b : Byte) => l ++ (if b = 1 then "x" else "-")) =
      (fun l b => l ++ stepChar b) from rfl]
    rw [foldl_strAppend stepChar m line, strAppend_assoc]
  have hfold : ∀ (ms : List (List Byte)) (init : String),
      ms.foldl (fun line m =>
        (m.foldl (fun l b => l ++ (if b = 1 then "x" else "-")) line) ++ "|") init =
        init ++ strJoin (ms.map fun m => strJoin (m.map stepChar) ++ "|") := by
    intro ms
    induction ms with
    | nil =>
      intro init
      apply String.ext
      simp [strJoin]
    | cons m ms ih =>
      intro init
      show ms.foldl _ ((m.foldl _ init) ++ "|") = _
      rw [hfun init m, ih, List.map_cons, strJoin_cons, strAppend_assoc]
  rw [hfold, strAppend_assoc]

/-- Rendering, compositionally: version line, tempo line, then the joined
instrument lines. -/
theorem patternString_eq (p : Pattern) :
    patternString p =
      ("Saved with HW Version: " ++ bytesToString p.version ++ "\n") ++
      ("Tempo: " ++ formatF32 p.tempo ++ "\n") ++
      strJoin (p.instruments.map instrLine) := by
  unfold patternString
  rw [foldl_strAppend instrLine p.instruments "", strAppend_empty_left]

end Drum
namespace Drum

/-- C1: for every valid input (header, size byte `N = 36 + size of the
record section`, 32-byte version, 4-byte tempo, well-formed records,
possibly trailing bytes), V1 decoding succeeds, and the metadata parse
(36 bytes) plus the instrument-record parses consume exactly `N` bytes:
the counting loop, started at `N - 36`, consumes exactly the record
section, leaves the trailing bytes unread, and stops with the remainder
at exactly zero (each subtraction stays within the remainder; it never
wraps below zero and the loop never stops above zero). -/
theorem spec_c1 (rs : List Rec) (vB tB extra : List Byte)
    (hwf : ∀ r ∈ rs, r.WF) (hv : vB.length = 32) (ht : tB.length = 4)
    (hN : 36 + recsSize rs ≤ 255) :
    decodeV1 (spliceFile rs vB tB extra) = .ok (splicePattern rs vB tB) ∧
    instrLoopV1 (recsSize rs) (encodeRecs rs ++ extra) =
      .ok (rs.map Rec.toInstrument, extra) :=
  ⟨decodeV1_wf rs vB tB extra hwf hv ht hN,
   instrLoopV1Aux_encode rs extra _ hwf (by omega) (by omega)⟩

theorem spec_c1_witness :
    decodeV1 (spliceFile [] (List.replicate 32 0) [0, 0, 0, 0] []) =
      .ok (splicePattern [] (List.replicate 32 0) [0, 0, 0, 0]) :=
  (spec_c1 [] (List.replicate 32 0) [0, 0, 0, 0] []
    (by simp) (by simp) (by simp) (by decide)).1

/-- C9: the streaming decoder (V1) and the buffer-slicing decoder (V2) are
the same design: on every well-formed input they produce the same result,
a pattern with identical version text, tempo and instrument sequence
(same ids, names and step bytes in the same order). -/
theorem spec_c9 (rs : List Rec) (vB tB extra : List Byte)
    (hwf : ∀ r ∈ rs, r.WF) (hv : vB.length = 32) (ht : tB.length = 4)
    (hN : 36 + recsSize rs ≤ 255) :
    decodeV1 (spliceFile rs vB tB extra) = decodeV2 (spliceFile rs vB tB extra) ∧
    decodeV2 (spliceFile rs vB tB extra) = .ok (splicePattern rs vB tB) := by
  have h2 := decodeV2_wf rs vB tB extra hwf hv ht hN
  exact ⟨by rw [decodeV1_wf rs vB tB extra hwf hv ht hN, h2], h2⟩

theorem spec_c9_witness :
    decodeV1 (spliceFile [kickRec] ver0808 tempo120 []) =
      decodeV2 (spliceFile [kickRec] ver0808 tempo120 []) :=
  (spec_c9 [kickRec] ver0808 tempo120 []
    (by decide) (by decide) (by decide) (by decide)).1

/-- C4: building a record's raw bytes as id(4, little-endian) + nameLen(1)
+ name + 16 step bytes from any id, name (length 0-255) and four 4-byte
step groups, and parsing them back, yields the same id, name and step
bytes; V1 reports the consumed count `5 + len(name) + 16` and V2 leaves
an empty remainder (the same count consumed). -/
theorem spec_c4 (r : Rec) (h : r.WF) :
    readInstrumentV1 r.encode = .ok (5 + r.name.length + 16, r.toInstrument, []) ∧
    readInstrumentV2 r.encode = .ok (r.toInstrument, []) := by
  have h1 := readInstrumentV1_encode [] h
  have h2 := readInstrumentV2_encode [] h
  rw [List.append_nil] at h1 h2
  refine ⟨?_, h2⟩
  rw [show 5 + r.name.length + 16 = 21 + r.name.length from by omega]
  exact h1

theorem spec_c4_witness :
    readInstrumentV2 snareRec.encode = .ok (snareRec.toInstrument, []) :=
  (spec_c4 snareRec (by decide)).2

/-- C3 counterexample: the 13-byte buffer `0x00` + `"SPLICE"` + 6 zero
bytes is ACCEPTED by `parseHeader` (`bytes.Trim` also strips the leading
zero), although its trailing-zero-stripped content is not `"SPLICE"` — so
validation does not accept exactly "SPLICE plus trailing zero padding". -/
theorem spec_c3_cex :
    parseHeader leadingZeroHeader = .ok spliceBytes ∧
    stripTrailingZeros leadingZeroHeader = 0 :: spliceBytes := by
  decide

/-- C3 amended: header validation accepts exactly the buffers that are
`"SPLICE"` surrounded by any amount of LEADING and trailing zero-byte
padding (for a 13-byte buffer, padding totalling 7 bytes), and fails with
the invalid-header error on every other buffer. -/
theorem spec_c3 (h : List Byte) :
    parseHeader h = .ok spliceBytes ↔
      ∃ a b, h = List.replicate a 0 ++ spliceBytes ++ List.replicate b 0 := by
  constructor
  · intro hok
    have htr : trimZero h = spliceBytes := by
      by_cases hc : trimZero h = spliceBytes
      · exact hc
      · unfold parseHeader at hok
        rw [if_neg hc] at hok
        exact absurd hok (by simp)
    obtain ⟨⟨a, b, hd⟩, -, -⟩ := trimZero_spec h
    exact ⟨a, b, by rw [← htr]; exact hd⟩
  · rintro ⟨a, b, rfl⟩
    have htr : trimZero (List.replicate a 0 ++ spliceBytes ++ List.replicate b 0) =
        spliceBytes :=
      trimZero_padded (by decide) (by decide) a b
    unfold parseHeader
    rw [htr, if_pos rfl]

theorem spec_c3_witness :
    parseHeader (spliceBytes ++ List.replicate 7 0) = .ok spliceBytes :=
  (spec_c3 (spliceBytes ++ List.replicate 7 0)).mpr ⟨0, 7, by decide⟩

/-- C6 counterexample: a 32-byte version field starting with a zero byte:
decoding strips that LEADING zero too (`bytes.Trim` trims both ends), so
the decoded version text is `"a"`, not the trailing-only-stripped
`"\x00a"` the claim prescribes. -/
theorem spec_c6_cex :
    decodeV2 leadingZeroVersionInput = .ok ⟨[97], F32.finite false 0 (-149), []⟩ ∧
    stripTrailingZeros leadingZeroVersionField = [0, 97] := by
  decide

/-- C6 amended: for every 32-byte version field, the decoded version text
is the field with its LEADING and trailing zero bytes stripped; all bytes
in between — printable or not — are preserved unchanged, and the stripped
text neither starts nor ends with a zero byte. -/
theorem spec_c6 (vB tB : List Byte) (hv : vB.length = 32) (ht : tB.length = 4) :
    decodeV2 (spliceHeader ++ [36] ++ vB ++ tB) =
      .ok ⟨trimZero vB, f32FromBytes tB, []⟩ ∧
    ∃ a b, vB = List.replicate a 0 ++ trimZero vB ++ List.replicate b 0 ∧
      ¬((trimZero vB).head? = some 0) ∧ ¬((trimZero vB).getLast? = some 0) := by
  constructor
  · have h := decodeV2_wf [] vB tB [] (by simp) hv ht (by decide)
    have hfile : spliceFile [] vB tB [] = spliceHeader ++ [36] ++ vB ++ tB := by
      simp [spliceFile, encodeRecs, recsSize]
    rw [hfile] at h
    simpa [splicePattern] using h
  · obtain ⟨⟨a, b, hd⟩, hh, hl⟩ := trimZero_spec vB
    exact ⟨a, b, hd, hh, hl⟩

theorem spec_c6_witness :
    decodeV2 (spliceHeader ++ [36] ++ ([48, 46, 57] ++ List.replicate 29 0) ++
        [0, 0, 0, 0]) =
      .ok ⟨trimZero ([48, 46, 57] ++ List.replicate 29 0),
        f32FromBytes [0, 0, 0, 0], []⟩ :=
  (spec_c6 ([48, 46, 57] ++ List.replicate 29 0) [0, 0, 0, 0]
    (by decide) (by decide)).1

/-- C5: each beat byte renders as `x` exactly when it is `0x01` and as `-`
for every other value (`0x00`, `0xFF`, ...); the instrument line is the
`(id) name` prefix, a tab, then per group its four beat characters and a
closing `|`, then a newline; in particular the kick instrument of the
claim renders as exactly `"(1) kick\t|x---|x---|x---|x---|\n"`. -/
theorem spec_c5 :
    (∀ i : Instrument, instrLine i =
      "(" ++ Nat.repr i.num ++ ") " ++ bytesToString i.name ++ "\t|" ++
        strJoin (i.measure.map fun m => strJoin (m.map stepChar) ++ "|") ++ "\n") ∧
    stepChar 1 = "x" ∧
    (∀ b : Byte, b ≠ 1 → stepChar b = "-") ∧
    instrLine ⟨1, [107, 105, 99, 107],
      [[1, 0, 0, 0], [1, 0, 0, 0], [1, 0, 0, 0], [1, 0, 0, 0]]⟩ =
      "(1) kick\t|x---|x---|x---|x---|\n" := by
  refine ⟨instrLine_eq, rfl, ?_, ?_⟩
  · intro b hb
    simp [stepChar, hb]
  · decide

theorem spec_c5_witness :
    stepChar 0 = "-" ∧ stepChar 255 = "-" :=
  ⟨spec_c5.2.2.1 0 (by decide), spec_c5.2.2.1 255 (by decide)⟩

/-- C7: the input "SPLICE" + 7 zeros, size byte 0x24, version
"0.808-alpha" zero-padded to 32 bytes, the little-endian float32 bytes of
120.0, and nothing else, decodes successfully to a pattern with no
instruments (tempo = 15728640·2⁻¹⁷ = 120), and that pattern renders as
exactly `"Saved with HW Version: 0.808-alpha\nTempo: 120\n"`. -/
theorem spec_c7 :
    decodeV2 c7input = .ok c7pattern ∧
    patternString c7pattern =
      "Saved with HW Version: 0.808-alpha\nTempo: 120\n" := by
  exact ⟨by decide, by decide⟩

/-- C8: the decoders are total only under the precondition `N ≥ 36` with
every record inside the payload: on a file whose declared payload length
is 0 (< 36), and on a file whose record declares a name length exceeding
the remaining payload, the V2 decoder does not return an error value at
all — it crashes on an out-of-range slice (the embedding's out-of-bounds
branch). -/
theorem spec_c8 :
    decodeV2 shortPayloadInput = .crash ∧
    decodeV2 nameOverrun100Input = .crash := by
  decide

/-- C10: the renderer is total over every `Pattern` value, not only
well-formed ones: whatever the version, tempo, number of instruments,
group counts or group lengths, it produces the version line, the tempo
line, then one line per instrument showing exactly the groups present. -/
theorem spec_c10 (p : Pattern) :
    patternString p =
      ("Saved with HW Version: " ++ bytesToString p.version ++ "\n") ++
      ("Tempo: " ++ formatF32 p.tempo ++ "\n") ++
      strJoin (p.instruments.map instrLine) ∧
    ∀ i ∈ p.instruments, instrLine i =
      "(" ++ Nat.repr i.num ++ ") " ++ bytesToString i.name ++ "\t|" ++
        strJoin (i.measure.map fun m => strJoin (m.map stepChar) ++ "|") ++ "\n" :=
  ⟨patternString_eq p, fun i _ => instrLine_eq i⟩

theorem spec_c10_witness :
    instrLine ⟨2, [], [[9, 9]]⟩ =
      "(" ++ Nat.repr 2 ++ ") " ++ bytesToString [] ++ "\t|" ++
        strJoin ([[9, 9]].map fun m => strJoin (m.map stepChar) ++ "|") ++ "\n" :=
  (spec_c10 ⟨[], F32.nan, [⟨2, [], [[9, 9]]⟩]⟩).2 ⟨2, [], [[9, 9]]⟩ (by simp)

end Drum
